import Mathlib

/-!
Verification of the rate-limited access-coordination layer of the
levifig/metacord repository: the Discord rate-limiter durable object
(`functions/lib/discord-rate-limiter.ts`), the token crypto wrapper
(`functions/lib/crypto.ts`), the session vault (`functions/lib/session.ts`),
and the client-side batch fetch orchestrator (`src/lib/fetch-orchestrator.ts`).

The TypeScript is shallowly embedded: every stateful method becomes a pure
function from the explicit object state (plus the current clock value and
the injected results of platform calls) to the new state together with the
observable outputs.  JavaScript numbers holding integer millisecond clocks
and counters are embedded as `Int`; the provider-reported reset values,
which may be fractional (`parseFloat`), are embedded as `Rat`.
-/

namespace Metacord

/-! ## Admission coordinator (`functions/lib/discord-rate-limiter.ts`)

Configuration constants, copied from the source. -/

def RESERVE_BUFFER : Int := 2

def QUEUE_TIMEOUT_MS : Int := 7000

def MAX_QUEUE_SIZE : Nat := 150

def DEFAULT_RATE_LIMIT : Int := 5

def STALE_STATE_MS : Int := 60000

/-- Rate limit state tracked from Discord response headers (`RateLimitState`).
`limit`/`remaining` are `parseInt` results, `resetAt`/`resetAfter` are
`parseFloat` results (fractional seconds), `lastUpdated` is a `Date.now()`
millisecond clock value. -/
structure RateLimitState where
  limit : Int
  remaining : Int
  resetAt : Rat
  resetAfter : Rat
  bucket : Option String
  isGlobal : Bool
  scope : Option String
  lastUpdated : Int
  deriving Repr, DecidableEq

/-- Result record returned by `acquireSlot` and queue resolutions
(`AcquireSlotResult`). -/
structure AcquireSlotResult where
  allowed : Bool
  waitMs : Option Rat := none
  queueId : Option Nat := none
  error : Option String := none
  deriving Repr, DecidableEq

/-- Synchronous outcome of `acquireSlot`: either an immediately returned
result, or the request was placed in the wait queue (its promise stays
pending until `processQueue` or its timeout resolves it). -/
inductive AcquireOutcome where
  | immediate (r : AcquireSlotResult)
  | queued (id : Nat)
  deriving Repr, DecidableEq

/-- The durable object's mutable fields: `rateLimitState`, `queue` and
`activeRequests`.  A `QueuedRequest` (`id`, resolve callback, timeout
handle, `addedAt`) is represented by its `id` in `queue`; `timers` holds
the ids whose `setTimeout` cancellation timer is still pending (`addedAt`
is never read by the source).  `activeRequests` is an `Int` so that its
non-negativity is a theorem rather than an assumption of the embedding. -/
structure Coordinator where
  state : RateLimitState
  queue : List Nat
  timers : List Nat
  activeRequests : Int
  deriving Repr, DecidableEq

/-- `getDefaultState()`. -/
def getDefaultState : RateLimitState where
  limit := DEFAULT_RATE_LIMIT
  remaining := DEFAULT_RATE_LIMIT - RESERVE_BUFFER
  resetAt := 0
  resetAfter := 0
  bucket := none
  isGlobal := false
  scope := none
  lastUpdated := 0

/-- The coordinator as built by the constructor: default state, empty
queue, `activeRequests = 0`. -/
def defaultCoordinator : Coordinator where
  state := getDefaultState
  queue := []
  timers := []
  activeRequests := 0

/-- `isStateStale()`, with the `Date.now()` value passed explicitly. -/
def isStateStale (st : RateLimitState) (now : Int) : Bool :=
  st.lastUpdated == 0 || now - st.lastUpdated > STALE_STATE_MS

/-- `getEffectiveRemaining()`, as a function of the rate-limit state, the
`activeRequests` count and the clock. -/
def effRemaining (st : RateLimitState) (active : Int) (now : Int) : Int :=
  let resetAtMs : Rat := st.resetAt * 1000
  if 0 < resetAtMs ∧ resetAtMs ≤ (now : Rat) then
    st.limit - RESERVE_BUFFER - active
  else if isStateStale st now then
    max 0 (DEFAULT_RATE_LIMIT - RESERVE_BUFFER - active)
  else
    max 0 (st.remaining - RESERVE_BUFFER - active)

/-- `getEffectiveRemaining()` on a whole coordinator. -/
def getEffectiveRemaining (c : Coordinator) (now : Int) : Int :=
  effRemaining c.state c.activeRequests now

/-- `getWaitTimeMs()`. -/
def getWaitTimeMs (c : Coordinator) (now : Int) : Rat :=
  let resetAtMs : Rat := c.state.resetAt * 1000
  if resetAtMs ≤ (now : Rat) then 0
  else resetAtMs - now + 100

/-- The body of the `processQueue()` while loop: pops queued requests while
capacity is available, returning the new `activeRequests` count, the
remaining queue, and the resolutions emitted (each queued request `id` is
resolved as `{ allowed := true, queueId := some id }`). -/
def processQueueAux (st : RateLimitState) (now : Int) (active : Int) :
    List Nat → Int × List Nat × List (Nat × AcquireSlotResult)
  | [] => (active, [], [])
  | q :: rest =>
    if effRemaining st active now ≤ 0 then (active, q :: rest, [])
    else
      let (a, qr, res) := processQueueAux st now (active + 1) rest
      (a, qr, (q, { allowed := true, queueId := some q }) :: res)

/-- `processQueue()`: advances the queue; every resolved entry has its
cancellation timer cleared (`clearTimeout`), modelled by erasing its id
from `timers`. -/
def processQueue (c : Coordinator) (now : Int) :
    Coordinator × List (Nat × AcquireSlotResult) :=
  let (a, qr, res) := processQueueAux c.state now c.activeRequests c.queue
  ({ c with activeRequests := a, queue := qr,
            timers := res.foldl (fun t p => t.erase p.1) c.timers }, res)

/-- `acquireSlot()`.  `newId` stands for the `crypto.randomUUID()` value
used for the queued request; the enqueued entry also arms a cancellation
timer (`setTimeout`), modelled by appending the id to `timers`. -/
def acquireSlot (c : Coordinator) (now : Int) (newId : Nat) :
    Coordinator × AcquireOutcome :=
  if 0 < getEffectiveRemaining c now then
    ({ c with activeRequests := c.activeRequests + 1 },
     .immediate { allowed := true })
  else if MAX_QUEUE_SIZE ≤ c.queue.length then
    (c, .immediate { allowed := false, error := some "Rate limit queue full",
                     waitMs := some (getWaitTimeMs c now) })
  else
    ({ c with queue := c.queue ++ [newId], timers := c.timers ++ [newId] },
     .queued newId)

/-- The queued-request timeout callback firing for id `qid`: if the entry
is still queued it is spliced out and resolved as a queue timeout;
otherwise nothing happens.  Returns whether a resolution was emitted. -/
def fireTimeout (c : Coordinator) (qid : Nat) (now : Int) :
    Coordinator × Option AcquireSlotResult :=
  if c.queue.contains qid then
    ({ c with queue := c.queue.erase qid, timers := c.timers.erase qid },
     some { allowed := false, error := some "Queue timeout",
            waitMs := some (getWaitTimeMs c now) })
  else
    ({ c with timers := c.timers.erase qid }, none)

/-- Parsed Discord rate-limit headers as consumed by
`updateFromResponse`: a `none` field is a header that was absent
(`null`); a present field carries the `parseInt`/`parseFloat` value (the
`global` header is kept as its raw string, compared against "true"). -/
structure ResponseHeaders where
  limit : Option Int
  remaining : Option Int
  reset : Option Rat
  resetAfter : Option Rat
  bucket : Option String
  global : Option String
  scope : Option String
  deriving Repr, DecidableEq

/-- The header-merging step of `updateFromResponse(headers)`: each present
field overwrites the stored one and `lastUpdated` is set to now, but only
when at least one of limit/remaining is present. -/
def mergeHeaders (st : RateLimitState) (h : ResponseHeaders) (now : Int) :
    RateLimitState :=
  if h.limit.isSome || h.remaining.isSome then
    { st with
      limit := h.limit.getD st.limit,
      remaining := h.remaining.getD st.remaining,
      resetAt := h.reset.getD st.resetAt,
      resetAfter := h.resetAfter.getD st.resetAfter,
      bucket := match h.bucket with | some b => some b | none => st.bucket,
      isGlobal := match h.global with | some g => g == "true" | none => st.isGlobal,
      scope := match h.scope with | some s => some s | none => st.scope,
      lastUpdated := now }
  else st

/-- `updateFromResponse(headers)`: merges present header fields and then
processes the queue. -/
def updateFromResponse (c : Coordinator) (h : ResponseHeaders) (now : Int) :
    Coordinator × List (Nat × AcquireSlotResult) :=
  processQueue { c with state := mergeHeaders c.state h now } now

/-- `releaseSlot()`. -/
def releaseSlot (c : Coordinator) (now : Int) :
    Coordinator × List (Nat × AcquireSlotResult) :=
  let c1 :=
    if 0 < c.activeRequests then
      { c with activeRequests := c.activeRequests - 1 }
    else c
  processQueue c1 now

/-- `handleRateLimited(retryAfterSeconds)`. -/
def handleRateLimited (c : Coordinator) (retryAfterSeconds : Rat) (now : Int) :
    Coordinator :=
  { c with state :=
      { c.state with
        remaining := 0,
        resetAt := (now : Rat) / 1000 + retryAfterSeconds,
        resetAfter := retryAfterSeconds,
        lastUpdated := now } }

/-! ### Coordinator lemmas -/

/-- The upper bound that holds for `activeRequests` at the moment a slot is
granted: each branch of `getEffectiveRemaining` requires strictly positive
capacity before the increment. -/
theorem effRemaining_pos_bound {st : RateLimitState} {a now : Int}
    (h : 0 < effRemaining st a now) :
    a + 1 ≤ max (max st.limit st.remaining) DEFAULT_RATE_LIMIT - RESERVE_BUFFER := by
  unfold effRemaining at h
  unfold RESERVE_BUFFER DEFAULT_RATE_LIMIT at h ⊢
  dsimp only at h
  split at h
  · omega
  · split at h <;> omega

/-- Facts about one run of the `processQueue` while loop: the resolved
entries form a prefix of the queue, `activeRequests` grows by exactly the
number of resolutions, each resolution is `allowed = true` with the
entry's queue id, and whenever at least one entry was resolved the final
`activeRequests` respects the grant-time capacity bound. -/
theorem processQueueAux_spec (st : RateLimitState) (now : Int) :
    ∀ (q : List Nat) (a : Int),
      q = ((processQueueAux st now a q).2.2).map Prod.fst ++ (processQueueAux st now a q).2.1 ∧
      (processQueueAux st now a q).1 = a + ((processQueueAux st now a q).2.2).length ∧
      (∀ p ∈ (processQueueAux st now a q).2.2,
        p.2 = { allowed := true, queueId := some p.1 }) ∧
      (a < (processQueueAux st now a q).1 →
        (processQueueAux st now a q).1 ≤
          max (max st.limit st.remaining) DEFAULT_RATE_LIMIT - RESERVE_BUFFER) ∧
      (q ≠ [] → 0 < effRemaining st a now → (processQueueAux st now a q).2.2 ≠ [])
  | [], a => by
    simp [processQueueAux]
  | q :: rest, a => by
    by_cases h : effRemaining st a now ≤ 0
    · simp [processQueueAux, h]
    · have hpos : 0 < effRemaining st a now := by omega
      have ih := processQueueAux_spec st now rest (a + 1)
      simp only [processQueueAux, if_neg h]
      rcases hpq : processQueueAux st now (a + 1) rest with ⟨a', qr, res⟩
      rw [hpq] at ih
      simp only at ih
      obtain ⟨ihq, iha, ihres, ihbd, _⟩ := ih
      refine ⟨by simpa using ihq, by simp; omega, ?_, ?_, by simp⟩
      · intro p hp
        rcases List.mem_cons.mp hp with hp | hp
        · simp [hp]
        · exact ihres p hp
      · intro _
        rcases Nat.eq_zero_or_pos res.length with hz | hz
        · have ha' : a' = a + 1 := by omega
          subst ha'
          exact effRemaining_pos_bound hpos
        · exact ihbd (by omega)

/-- `processQueue` never touches the rate-limit state record. -/
theorem processQueue_state (c : Coordinator) (now : Int) :
    ((processQueue c now).1).state = c.state := rfl

/-- `processQueue` only increments `activeRequests`. -/
theorem processQueue_active_le (c : Coordinator) (now : Int) :
    c.activeRequests ≤ ((processQueue c now).1).activeRequests := by
  have h := (processQueueAux_spec c.state now c.queue c.activeRequests).2.1
  show c.activeRequests ≤ (processQueueAux c.state now c.activeRequests c.queue).1
  omega

/-- Erasing elements never adds members. -/
theorem notMem_foldl_erase {x : Nat} :
    ∀ (ids : List Nat) (l : List Nat), x ∉ l →
      x ∉ ids.foldl (fun t i => t.erase i) l
  | [], l, hx => hx
  | i :: ids, l, hx => by
    simp only [List.foldl_cons]
    exact notMem_foldl_erase ids (l.erase i) fun hm => hx (List.mem_of_mem_erase hm)

/-- Erasing every id of `ids` from a duplicate-free list removes each of
them. -/
theorem mem_foldl_erase_self {x : Nat} :
    ∀ (ids : List Nat) (l : List Nat), l.Nodup → x ∈ ids →
      x ∉ ids.foldl (fun t i => t.erase i) l
  | [], _, _, hx => absurd hx (List.not_mem_nil x)
  | i :: ids, l, hnd, hx => by
    simp only [List.foldl_cons]
    rcases eq_or_ne x i with rfl | hne
    · refine notMem_foldl_erase ids (l.erase x) ?_
      intro hm
      exact ((List.Nodup.mem_erase_iff hnd).1 hm).1 rfl
    · have hx' : x ∈ ids := by
        rcases List.mem_cons.mp hx with h | h
        · exact absurd h hne
        · exact h
      exact mem_foldl_erase_self ids (l.erase i) (List.Nodup.erase i hnd) hx'

/-- Folding an erase over resolution pairs is folding it over their ids. -/
theorem foldl_erase_eq (res : List (Nat × AcquireSlotResult)) (l : List Nat) :
    res.foldl (fun t p => t.erase p.1) l =
      (res.map Prod.fst).foldl (fun t i => t.erase i) l := by
  induction res generalizing l with
  | nil => rfl
  | cons p res ih => simp [List.foldl_cons, ih]

/-- If `processQueue` granted at least one slot, the final `activeRequests`
respects the grant-time capacity bound for the (unchanged) state record. -/
theorem processQueue_grant_bound (c : Coordinator) (now : Int)
    (h : c.activeRequests < ((processQueue c now).1).activeRequests) :
    ((processQueue c now).1).activeRequests ≤
      max (max c.state.limit c.state.remaining) DEFAULT_RATE_LIMIT - RESERVE_BUFFER := by
  have hs := processQueueAux_spec c.state now c.queue c.activeRequests
  have h' : c.activeRequests < (processQueueAux c.state now c.activeRequests c.queue).1 := h
  exact hs.2.2.2.1 h'

/-- One method call of the durable object, at an arbitrary clock value and
with arbitrary arguments (including the firing of a queued request's
timeout). -/
inductive Step : Coordinator → Coordinator → Prop
  | acquire (c : Coordinator) (now : Int) (id : Nat) : Step c (acquireSlot c now id).1
  | release (c : Coordinator) (now : Int) : Step c (releaseSlot c now).1
  | update (c : Coordinator) (h : ResponseHeaders) (now : Int) :
      Step c (updateFromResponse c h now).1
  | rateLimited (c : Coordinator) (r : Rat) (now : Int) :
      Step c (handleRateLimited c r now)
  | timeoutFire (c : Coordinator) (id : Nat) (now : Int) :
      Step c (fireTimeout c id now).1

/-- Coordinator states reachable from the freshly constructed durable
object by any sequence of method calls. -/
inductive Reach : Coordinator → Prop
  | init : Reach defaultCoordinator
  | step {c c' : Coordinator} : Reach c → Step c c' → Reach c'

/-- A single method call never drives `activeRequests` negative. -/
theorem step_active_nonneg {c c' : Coordinator} (s : Step c c')
    (h : 0 ≤ c.activeRequests) : 0 ≤ c'.activeRequests := by
  cases s with
  | acquire now id =>
    unfold acquireSlot
    split_ifs <;> simp <;> omega
  | release now =>
    have h2 := processQueue_active_le
      (if 0 < c.activeRequests then { c with activeRequests := c.activeRequests - 1 } else c) now
    have h1 : 0 ≤ (if 0 < c.activeRequests then
        { c with activeRequests := c.activeRequests - 1 } else c).activeRequests := by
      split_ifs with hp
      · show 0 ≤ c.activeRequests - 1
        omega
      · exact h
    exact le_trans h1 h2
  | update hh now =>
    exact le_trans h (processQueue_active_le { c with state := mergeHeaders c.state hh now } now)
  | rateLimited r now => exact h
  | timeoutFire id now =>
    unfold fireTimeout
    split_ifs <;> simpa using h

/-- Whenever a single method call strictly increases `activeRequests`, the
new count is bounded by the grant-time capacity computed from the call's
post-state fields. -/
theorem step_grant_bound {c c' : Coordinator} (s : Step c c')
    (h : c.activeRequests < c'.activeRequests) :
    c'.activeRequests ≤
      max (max c'.state.limit c'.state.remaining) DEFAULT_RATE_LIMIT - RESERVE_BUFFER := by
  cases s with
  | acquire now id =>
    by_cases h1 : 0 < getEffectiveRemaining c now
    · have he : (acquireSlot c now id).1 = { c with activeRequests := c.activeRequests + 1 } := by
        unfold acquireSlot
        rw [if_pos h1]
      rw [he]
      simpa using effRemaining_pos_bound h1
    · have he : ((acquireSlot c now id).1).activeRequests = c.activeRequests := by
        unfold acquireSlot
        rw [if_neg h1]
        split_ifs <;> simp
      omega
  | release now =>
    set c1 := (if 0 < c.activeRequests then
        { c with activeRequests := c.activeRequests - 1 } else c) with hc1def
    have hc1 : c1.activeRequests ≤ c.activeRequests := by
      rw [hc1def]
      split_ifs with hp
      · show c.activeRequests - 1 ≤ c.activeRequests
        omega
      · exact le_refl _
    have hb := processQueue_grant_bound c1 now (lt_of_le_of_lt hc1 h)
    show ((processQueue c1 now).1).activeRequests ≤
      max (max ((processQueue c1 now).1).state.limit
        ((processQueue c1 now).1).state.remaining) DEFAULT_RATE_LIMIT - RESERVE_BUFFER
    rw [processQueue_state c1 now]
    exact hb
  | update hh now =>
    exact processQueue_grant_bound { c with state := mergeHeaders c.state hh now } now h
  | rateLimited r now =>
    have he : (handleRateLimited c r now).activeRequests = c.activeRequests := rfl
    omega
  | timeoutFire id now =>
    have he : ((fireTimeout c id now).1).activeRequests = c.activeRequests := by
      unfold fireTimeout
      split_ifs <;> simp
    omega

/-- Every reachable coordinator state has a non-negative `activeRequests`. -/
theorem reach_active_nonneg {c : Coordinator} (hc : Reach c) : 0 ≤ c.activeRequests := by
  induction hc with
  | init => exact le_refl 0
  | step _ s ih => exact step_active_nonneg s ih

/-- C1 (amended): over every sequence of coordinator method calls starting
from the default state, `activeRequests` never becomes negative; and at
every call that grants slots (strictly increases `activeRequests`), the new
count is bounded by `max(limit, remaining, DEFAULT_RATE_LIMIT) -
RESERVE_BUFFER` over the post-call field values.  (The original claim's
bound by the current `limit` field alone is refuted by
`activeRequests_exceeds_limit`.) -/
theorem activeRequests_nonneg_and_grant_bound (c : Coordinator) (hc : Reach c) :
    0 ≤ c.activeRequests ∧
      ∀ c', Step c c' → c.activeRequests < c'.activeRequests →
        c'.activeRequests ≤
          max (max c'.state.limit c'.state.remaining) DEFAULT_RATE_LIMIT - RESERVE_BUFFER :=
  ⟨reach_active_nonneg hc, fun _ s h => step_grant_bound s h⟩

/-- Headers reporting `remaining` larger than `limit`, as
`updateFromResponse` accepts them unvalidated. -/
def cxHdrs : ResponseHeaders :=
  { limit := some 1, remaining := some 5, reset := none, resetAfter := none,
    bucket := none, global := none, scope := none }

def cx1 : Coordinator := (updateFromResponse defaultCoordinator cxHdrs 1000).1

def cx2 : Coordinator := (acquireSlot cx1 1000 0).1

def cx3 : Coordinator := (acquireSlot cx2 1000 1).1

def cx4 : Coordinator := (acquireSlot cx3 1000 2).1

/-- C1 (counterexample): after an `updateFromResponse` reporting
`limit = 1, remaining = 5` followed by three immediately granted
`acquireSlot` calls, the reachable state has `activeRequests = 3 > 1 =
limit`, so `activeRequests` can exceed the current `limit` field. -/
theorem activeRequests_exceeds_limit :
    Reach cx4 ∧ cx4.state.limit < cx4.activeRequests := by
  constructor
  · exact Reach.step
      (Reach.step
        (Reach.step
          (Reach.step Reach.init (Step.update defaultCoordinator cxHdrs 1000))
          (Step.acquire cx1 1000 0))
        (Step.acquire cx2 1000 1))
      (Step.acquire cx3 1000 2)
  · have h4 : cx4.state.limit = 1 ∧ cx4.activeRequests = 3 := by
      norm_num [cx4, cx3, cx2, cx1, acquireSlot, updateFromResponse, mergeHeaders,
        processQueue, processQueueAux, getEffectiveRemaining, effRemaining,
        isStateStale, defaultCoordinator, getDefaultState, cxHdrs,
        DEFAULT_RATE_LIMIT, RESERVE_BUFFER, STALE_STATE_MS, MAX_QUEUE_SIZE]
    omega

/-- C1 (witness): the invariant instantiated at the initial state and its
first slot grant. -/
theorem activeRequests_nonneg_witness :
    0 ≤ defaultCoordinator.activeRequests ∧
      ((acquireSlot defaultCoordinator 0 0).1).activeRequests ≤
        max (max ((acquireSlot defaultCoordinator 0 0).1).state.limit
              ((acquireSlot defaultCoordinator 0 0).1).state.remaining)
          DEFAULT_RATE_LIMIT - RESERVE_BUFFER := by
  have h := activeRequests_nonneg_and_grant_bound defaultCoordinator Reach.init
  refine ⟨h.1, h.2 _ (Step.acquire defaultCoordinator 0 0) ?_⟩
  norm_num [acquireSlot, getEffectiveRemaining, effRemaining, isStateStale,
    defaultCoordinator, getDefaultState, DEFAULT_RATE_LIMIT, RESERVE_BUFFER,
    STALE_STATE_MS]

/-! ### C3: immediate grant when effective remaining is positive -/

def fresh1 : Coordinator × AcquireOutcome := acquireSlot defaultCoordinator 0 0

def fresh2 : Coordinator × AcquireOutcome := acquireSlot fresh1.1 0 1

def fresh3 : Coordinator × AcquireOutcome := acquireSlot fresh2.1 0 2

def fresh4 : Coordinator × AcquireOutcome := acquireSlot fresh3.1 0 3

/-- C3: whenever `acquireSlot` runs with positive effective remaining it
returns `allowed = true` synchronously and increments `activeRequests` by
one; on the freshly constructed coordinator (default limit 5, buffer 2, no
updates) three sequential `acquireSlot` calls are each allowed, leaving
`activeRequests = 3`, and a fourth call is queued rather than returning an
immediate `allowed = true`. -/
theorem acquireSlot_immediate_when_capacity :
    (∀ (c : Coordinator) (now : Int) (id : Nat),
        0 < getEffectiveRemaining c now →
        acquireSlot c now id =
          ({ c with activeRequests := c.activeRequests + 1 },
            AcquireOutcome.immediate { allowed := true })) ∧
    fresh1.2 = AcquireOutcome.immediate { allowed := true } ∧
    fresh2.2 = AcquireOutcome.immediate { allowed := true } ∧
    fresh3.2 = AcquireOutcome.immediate { allowed := true } ∧
    fresh3.1.activeRequests = 3 ∧
    fresh4.2 = AcquireOutcome.queued 3 := by
  constructor
  · intro c now id h
    unfold acquireSlot
    rw [if_pos h]
  · norm_num [fresh1, fresh2, fresh3, fresh4, acquireSlot, getEffectiveRemaining,
      effRemaining, isStateStale, defaultCoordinator, getDefaultState,
      DEFAULT_RATE_LIMIT, RESERVE_BUFFER, STALE_STATE_MS, MAX_QUEUE_SIZE]

/-- C3 (witness): the universally quantified part applied to the fresh
coordinator's first call. -/
theorem acquireSlot_immediate_witness :
    acquireSlot defaultCoordinator 0 0 =
      ({ defaultCoordinator with activeRequests := defaultCoordinator.activeRequests + 1 },
        AcquireOutcome.immediate { allowed := true }) :=
  acquireSlot_immediate_when_capacity.1 defaultCoordinator 0 0 (by
    norm_num [getEffectiveRemaining, effRemaining, isStateStale, defaultCoordinator,
      getDefaultState, DEFAULT_RATE_LIMIT, RESERVE_BUFFER, STALE_STATE_MS])

/-! ### C4: releasing a slot advances the queue in FIFO order -/

/-- C4: when `releaseSlot` runs on a state with a non-empty wait queue and
the post-decrement effective remaining is positive, a non-empty prefix of
the queue is resolved: the oldest entry first, each resolution is
`allowed = true` carrying its queue id, `activeRequests` is incremented
once per resolved entry on top of the decremented count, and every
resolved entry's pending timeout is cancelled.  A newer entry is never
resolved ahead of an older one because the resolved entries form a prefix
of the FIFO queue, in queue order. -/
theorem releaseSlot_fifo (c : Coordinator) (now : Int)
    (hq : c.queue ≠ [])
    (hnd : c.timers.Nodup)
    (heff : 0 < getEffectiveRemaining
      (if 0 < c.activeRequests then
        { c with activeRequests := c.activeRequests - 1 } else c) now) :
    (releaseSlot c now).2 ≠ [] ∧
    ((releaseSlot c now).2.map Prod.fst).head? = c.queue.head? ∧
    c.queue = (releaseSlot c now).2.map Prod.fst ++ ((releaseSlot c now).1).queue ∧
    (∀ p ∈ (releaseSlot c now).2, p.2 = { allowed := true, queueId := some p.1 }) ∧
    ((releaseSlot c now).1).activeRequests =
      (if 0 < c.activeRequests then c.activeRequests - 1 else c.activeRequests) +
        (releaseSlot c now).2.length ∧
    (∀ p ∈ (releaseSlot c now).2, p.1 ∉ ((releaseSlot c now).1).timers) := by
  set c1 := (if 0 < c.activeRequests then
      { c with activeRequests := c.activeRequests - 1 } else c) with hc1def
  have hq1 : c1.queue = c.queue := by rw [hc1def]; split_ifs <;> rfl
  have hs1 : c1.state = c.state := by rw [hc1def]; split_ifs <;> rfl
  have ht1 : c1.timers = c.timers := by rw [hc1def]; split_ifs <;> rfl
  have ha1 : c1.activeRequests =
      (if 0 < c.activeRequests then c.activeRequests - 1 else c.activeRequests) := by
    rw [hc1def]; split_ifs <;> rfl
  have hspec := processQueueAux_spec c1.state now c1.queue c1.activeRequests
  obtain ⟨hpref, hact, hres, _, hne⟩ := hspec
  have hrne : (processQueueAux c1.state now c1.activeRequests c1.queue).2.2 ≠ [] := by
    refine hne ?_ heff
    rw [hq1]
    exact hq
  have e2 : (releaseSlot c now).2 =
      (processQueueAux c1.state now c1.activeRequests c1.queue).2.2 := rfl
  have e1q : ((releaseSlot c now).1).queue =
      (processQueueAux c1.state now c1.activeRequests c1.queue).2.1 := rfl
  have e1a : ((releaseSlot c now).1).activeRequests =
      (processQueueAux c1.state now c1.activeRequests c1.queue).1 := rfl
  have e1t : ((releaseSlot c now).1).timers =
      ((processQueueAux c1.state now c1.activeRequests c1.queue).2.2).foldl
        (fun t p => t.erase p.1) c1.timers := rfl
  refine ⟨by rw [e2]; exact hrne, ?_, ?_, ?_, ?_, ?_⟩
  · rw [e2]
    rcases hcase : (processQueueAux c1.state now c1.activeRequests c1.queue).2.2 with
      _ | ⟨p, res'⟩
    · exact absurd hcase hrne
    · rw [hcase] at hpref
      rw [← hq1, hpref]
      simp
  · rw [e2, e1q, ← hq1]
    exact hpref
  · rw [e2]
    exact hres
  · rw [e2, e1a, ← ha1]
    exact hact
  · intro p hp
    rw [e1t, ht1]
    rw [e2] at hp
    have hmem : p.1 ∈ ((processQueueAux c1.state now c1.activeRequests c1.queue).2.2).map
        Prod.fst := List.mem_map_of_mem Prod.fst hp
    rw [foldl_erase_eq]
    exact mem_foldl_erase_self _ c.timers hnd hmem

def c4ex : Coordinator :=
  { state := getDefaultState, queue := [7, 8], timers := [7, 8], activeRequests := 1 }

/-- C4 (witness): a concrete release on a coordinator with two queued
requests and one active slot. -/
theorem releaseSlot_fifo_witness :
    (releaseSlot c4ex 0).2 ≠ [] ∧
    ((releaseSlot c4ex 0).2.map Prod.fst).head? = c4ex.queue.head? ∧
    c4ex.queue = (releaseSlot c4ex 0).2.map Prod.fst ++ ((releaseSlot c4ex 0).1).queue ∧
    (∀ p ∈ (releaseSlot c4ex 0).2, p.2 = { allowed := true, queueId := some p.1 }) ∧
    ((releaseSlot c4ex 0).1).activeRequests =
      (if 0 < c4ex.activeRequests then c4ex.activeRequests - 1 else c4ex.activeRequests) +
        (releaseSlot c4ex 0).2.length ∧
    (∀ p ∈ (releaseSlot c4ex 0).2, p.1 ∉ ((releaseSlot c4ex 0).1).timers) :=
  releaseSlot_fifo c4ex 0 (by simp [c4ex]) (by simp [c4ex])
    (by norm_num [c4ex, getEffectiveRemaining, effRemaining, isStateStale,
      getDefaultState, DEFAULT_RATE_LIMIT, RESERVE_BUFFER, STALE_STATE_MS])

/-! ### C5: all-null limit/remaining headers leave the rate-limit state alone -/

/-- C5: `updateFromResponse` with both the limit and remaining header
values absent leaves the entire rate-limit state record unchanged — in
particular `lastUpdated`, `limit` and `remaining` keep their prior
values. -/
theorem updateFromResponse_null_noop (c : Coordinator) (h : ResponseHeaders) (now : Int)
    (hl : h.limit = none) (hr : h.remaining = none) :
    ((updateFromResponse c h now).1).state = c.state := by
  have hm : mergeHeaders c.state h now = c.state := by
    unfold mergeHeaders
    rw [hl, hr]
    simp
  show ((processQueue { c with state := mergeHeaders c.state h now } now).1).state = c.state
  rw [processQueue_state]
  exact hm

/-- C5 (witness): all-null headers on the fresh coordinator leave the
default state (with `lastUpdated = 0`) untouched. -/
theorem updateFromResponse_null_noop_witness :
    ((updateFromResponse defaultCoordinator
        { limit := none, remaining := none, reset := none, resetAfter := none,
          bucket := none, global := none, scope := none } 12345).1).state =
      defaultCoordinator.state :=
  updateFromResponse_null_noop defaultCoordinator _ 12345 rfl rfl

/-! ### C6: handleRateLimited forces the rate-limited state -/

/-- C6: `handleRateLimited(retryAfterSeconds)` sets `remaining = 0`,
`resetAt = now/1000 + retryAfterSeconds`, `resetAfter = retryAfterSeconds`
and `lastUpdated = now` (exactly, for the single clock reading the method
takes), and it neither advances the wait queue nor changes
`activeRequests`, the queue, the pending timers, or the other state
fields. -/
theorem handleRateLimited_spec (c : Coordinator) (r : Rat) (now : Int) :
    (handleRateLimited c r now).state.remaining = 0 ∧
    (handleRateLimited c r now).state.resetAt = (now : Rat) / 1000 + r ∧
    (handleRateLimited c r now).state.resetAfter = r ∧
    (handleRateLimited c r now).state.lastUpdated = now ∧
    (handleRateLimited c r now).queue = c.queue ∧
    (handleRateLimited c r now).timers = c.timers ∧
    (handleRateLimited c r now).activeRequests = c.activeRequests ∧
    (handleRateLimited c r now).state.limit = c.state.limit ∧
    (handleRateLimited c r now).state.bucket = c.state.bucket ∧
    (handleRateLimited c r now).state.isGlobal = c.state.isGlobal ∧
    (handleRateLimited c r now).state.scope = c.state.scope :=
  ⟨rfl, rfl, rfl, rfl, rfl, rfl, rfl, rfl, rfl, rfl, rfl⟩

/-! ### C9: queue-full fast failure leaves the state unchanged -/

/-- C9: when the effective remaining is 0 and the wait queue already holds
`MAX_QUEUE_SIZE` entries, `acquireSlot` returns `allowed = false` with the
queue-full error as data and the computed wait time, and the coordinator —
`activeRequests`, queue contents and rate-limit state — is exactly what it
was before the call. -/
theorem acquireSlot_queue_full (c : Coordinator) (now : Int) (id : Nat)
    (heff : getEffectiveRemaining c now = 0)
    (hq : c.queue.length = MAX_QUEUE_SIZE) :
    acquireSlot c now id =
      (c, AcquireOutcome.immediate
        { allowed := false, waitMs := some (getWaitTimeMs c now),
          error := some "Rate limit queue full" }) := by
  unfold acquireSlot
  rw [if_neg (by omega), if_pos (by omega)]

def c9ex : Coordinator :=
  { state := getDefaultState, queue := List.range 150, timers := List.range 150,
    activeRequests := 3 }

/-- C9 (witness): a concrete full-queue coordinator with zero effective
remaining. -/
theorem acquireSlot_queue_full_witness :
    acquireSlot c9ex 0 0 =
      (c9ex, AcquireOutcome.immediate
        { allowed := false, waitMs := some (getWaitTimeMs c9ex 0),
          error := some "Rate limit queue full" }) :=
  acquireSlot_queue_full c9ex 0 0
    (by norm_num [c9ex, getEffectiveRemaining, effRemaining, isStateStale,
      getDefaultState, DEFAULT_RATE_LIMIT, RESERVE_BUFFER, STALE_STATE_MS])
    (by simp [c9ex, MAX_QUEUE_SIZE])

/-! ## Batch fetch orchestrator (`src/lib/fetch-orchestrator.ts`)

`performWidgetFetch` drives per-guild widget fetches in batches of
`FETCH_BATCH_SIZE`.  The cooperative stop flag `fetchState.shouldStop` is
a shared boolean that the UI may set at any moment; the run reads it at
three kinds of checkpoints, in program order: at the top of the outer
batch loop, once per result inside `processBatch`'s result loop, and in
the inter-batch delay condition (only evaluated when further targets
remain).  The embedding numbers those reads: `readIdx` counts them and a
function `stop : Nat → Bool` gives the value each read observes.  A flag
that is set once and never cleared mid-run is `stopFrom s`: reads `0 ..
s-1` see `false`, reads from `s` on see `true`.  DOM updates, toasts and
the cache/timer writes carry no information used by the claims and are
not tracked; the summary counters, the `rateLimited`/`anySuccess` flags,
the auth early-return marker and the list of issued fetches are. -/

def FETCH_BATCH_SIZE : Nat := 5

def FETCH_BATCH_DELAY_MS : Nat := 1000

/-- The fields of a fetched widget that the run inspects
(`instant_invite` and `presence_count`). -/
structure Widget where
  instantInvite : Option String
  presenceCount : Option Nat
  deriving Repr, DecidableEq

/-- The settled outcome of one `fetchWidget` call: fulfilled, or rejected
with `AuthError`, `RateLimitError` (with its optional `retryAfter`), or
any other error. -/
inductive FetchOutcome where
  | ok (w : Widget)
  | authErr
  | rlErr (retryAfter : Option Nat)
  | otherErr
  deriving Repr, DecidableEq

/-- The run's mutable bookkeeping: the flag-read counter, the summary
counters (`completed`, `widgetsEnabled`, `widgetsDisabled`, `errors`),
the `rateLimited` and `anySuccess` locals, a marker that the auth
early-return was taken, and the guild ids for which a fetch was issued. -/
structure OrchState where
  readIdx : Nat
  completed : Nat
  widgetsEnabled : Nat
  widgetsDisabled : Nat
  errors : Nat
  rateLimited : Bool
  anySuccess : Bool
  aborted : Bool
  issued : List String
  deriving Repr, DecidableEq

def initialOrchState : OrchState :=
  { readIdx := 0, completed := 0, widgetsEnabled := 0, widgetsDisabled := 0,
    errors := 0, rateLimited := false, anySuccess := false, aborted := false,
    issued := [] }

/-- The result loop of `processBatch`: each iteration first reads the stop
flag (and the `rateLimited` local) and breaks if either is set, skipping
the bookkeeping of the remaining results; a fulfilled result is classified
and counted and `completed` is incremented; `AuthError` returns from
`processBatch` (the outer loop is not exited); `RateLimitError` sets
`rateLimited` and returns without incrementing `completed`; any other
error counts as an error and continues. -/
def processResults (stop : Nat → Bool) : OrchState → List FetchOutcome → OrchState
  | st, [] => st
  | st, r :: rest =>
    if stop st.readIdx || st.rateLimited then { st with readIdx := st.readIdx + 1 }
    else
      match r with
      | .ok w =>
        processResults stop
          { st with
            readIdx := st.readIdx + 1,
            anySuccess := true,
            widgetsEnabled := st.widgetsEnabled +
              (if w.instantInvite.isSome || w.presenceCount.isSome then 1 else 0),
            widgetsDisabled := st.widgetsDisabled +
              (if w.instantInvite.isSome || w.presenceCount.isSome then 0 else 1),
            completed := st.completed + 1 } rest
      | .authErr => { st with readIdx := st.readIdx + 1, aborted := true }
      | .rlErr _ => { st with readIdx := st.readIdx + 1, rateLimited := true }
      | .otherErr =>
        processResults stop
          { st with
            readIdx := st.readIdx + 1, errors := st.errors + 1,
            completed := st.completed + 1 } rest

/-- The inter-batch delay condition `i + FETCH_BATCH_SIZE <
targets.length && !fetchState.shouldStop && !rateLimited`: when further
targets remain it reads the stop flag once (the observed value only
decides whether to sleep, which the embedding does not track). -/
def delayCheckpoint (rest : List (List String)) (st2 : OrchState) : OrchState :=
  if rest.isEmpty then st2 else { st2 with readIdx := st2.readIdx + 1 }

/-- The outer batch loop of `performWidgetFetch`: before issuing each
batch it reads the stop flag and breaks if it (or `rateLimited`) is set;
otherwise all fetches of the batch are issued, the settled results are
processed, and the loop continues past the delay checkpoint. -/
def runBatches (stop : Nat → Bool) (outcome : String → FetchOutcome) :
    OrchState → List (List String) → OrchState
  | st, [] => st
  | st, batch :: rest =>
    if stop st.readIdx || st.rateLimited then { st with readIdx := st.readIdx + 1 }
    else
      runBatches stop outcome
        (delayCheckpoint rest
          (processResults stop
            { st with readIdx := st.readIdx + 1, issued := st.issued ++ batch }
            (batch.map outcome)))
        rest

/-- The slicing `targets.slice(i, i + FETCH_BATCH_SIZE)` of the outer
loop, as a list of batches; `FETCH_BATCH_SIZE = 5` is unrolled in the
patterns so the function reduces structurally. -/
def toBatches : List String → List (List String)
  | [] => []
  | t1 :: t2 :: t3 :: t4 :: t5 :: rest => [t1, t2, t3, t4, t5] :: toBatches rest
  | ts => [ts]

/-- The batched portion of `performWidgetFetch` over a target list (an
empty target list performs no fetches at all). -/
def runWidgetFetch (stop : Nat → Bool) (outcome : String → FetchOutcome)
    (targets : List String) : OrchState :=
  runBatches stop outcome initialOrchState (toBatches targets)

/-- A stop flag that is set (and stays set) between the `s-1`-th and
`s`-th reads of the run. -/
def stopFrom (s : Nat) : Nat → Bool := fun k => decide (s ≤ k)

/-- Outcomes that neither abort the batch nor set `rateLimited`. -/
def benign : FetchOutcome → Bool
  | .ok _ => true
  | .otherErr => true
  | _ => false

def isOk : FetchOutcome → Bool
  | .ok _ => true
  | _ => false

def hasDataOk : FetchOutcome → Bool
  | .ok w => w.instantInvite.isSome || w.presenceCount.isSome
  | _ => false

def noDataOk : FetchOutcome → Bool
  | .ok w => !(w.instantInvite.isSome || w.presenceCount.isSome)
  | _ => false

def isOther : FetchOutcome → Bool
  | .otherErr => true
  | _ => false

/-- When the stop flag reads `false` throughout a batch of benign results
(no auth or rate-limit rejections), every settled result is recorded:
`completed` grows by the batch size, the with-data/without-data/error
counters by the matching result counts, and `anySuccess` reflects any
fulfilled result. -/
theorem processResults_all_recorded (s : Nat) :
    ∀ (rs : List FetchOutcome) (st : OrchState),
      st.readIdx + rs.length ≤ s →
      st.rateLimited = false →
      (∀ r ∈ rs, benign r = true) →
      processResults (stopFrom s) st rs =
        { st with
          readIdx := st.readIdx + rs.length,
          completed := st.completed + rs.length,
          widgetsEnabled := st.widgetsEnabled + rs.countP (hasDataOk ·),
          widgetsDisabled := st.widgetsDisabled + rs.countP (noDataOk ·),
          errors := st.errors + rs.countP (isOther ·),
          anySuccess := st.anySuccess || rs.any isOk }
  | [], st, _, _, _ => by
    simp [processResults]
  | r :: rest, st, hstop, hrl, hb => by
    simp only [List.length_cons] at hstop
    have hflag : stopFrom s st.readIdx = false := by
      simp only [stopFrom, decide_eq_false_iff_not]
      omega
    have hcond : ¬ ((stopFrom s st.readIdx || st.rateLimited) = true) := by
      rw [hflag, hrl]
      simp
    have hbr : benign r = true := hb r (List.mem_cons_self r rest)
    have hbrest : ∀ x ∈ rest, benign x = true :=
      fun x hx => hb x (List.mem_cons_of_mem r hx)
    cases r with
    | ok w =>
      have ih := processResults_all_recorded s rest
        { st with
          readIdx := st.readIdx + 1,
          anySuccess := true,
          widgetsEnabled := st.widgetsEnabled +
            (if w.instantInvite.isSome || w.presenceCount.isSome then 1 else 0),
          widgetsDisabled := st.widgetsDisabled +
            (if w.instantInvite.isSome || w.presenceCount.isSome then 0 else 1),
          completed := st.completed + 1 }
        (by simp; omega) hrl hbrest
      simp only [processResults]
      rw [if_neg hcond, ih]
      simp only [OrchState.mk.injEq, List.length_cons, List.countP_cons, List.any_cons]
      by_cases hd : (w.instantInvite.isSome || w.presenceCount.isSome) = true
      <;> simp [hasDataOk, noDataOk, isOther, isOk, hd]
      <;> omega
    | authErr => simp [benign] at hbr
    | rlErr ra => simp [benign] at hbr
    | otherErr =>
      have ih := processResults_all_recorded s rest
        { st with
          readIdx := st.readIdx + 1, errors := st.errors + 1,
          completed := st.completed + 1 }
        (by simp; omega) hrl hbrest
      simp only [processResults]
      rw [if_neg hcond, ih]
      simp only [OrchState.mk.injEq, List.length_cons, List.countP_cons, List.any_cons]
      simp [hasDataOk, noDataOk, isOther, isOk]
      refine ⟨by omega, by omega, by omega⟩

/-- C2 (amended): once the stop flag reads `true` at the checkpoint before
a batch, no further fetch is issued; once it reads `true` at a result
checkpoint inside a batch, the bookkeeping of that and all later results
of the in-flight batch is skipped (the already-issued requests complete,
but the summary counters are unchanged); and every result that precedes
the first checkpoint observing the flag (here: a batch of benign results
processed entirely before the flag is observed) is recorded in the
summary counters. -/
theorem shouldStop_checkpoints :
    (∀ (s : Nat) (outcome : String → FetchOutcome) (st : OrchState)
        (bs : List (List String)),
        s ≤ st.readIdx →
        (runBatches (stopFrom s) outcome st bs).issued = st.issued) ∧
    (∀ (s : Nat) (st : OrchState) (r : FetchOutcome) (rest : List FetchOutcome),
        s ≤ st.readIdx →
        processResults (stopFrom s) st (r :: rest) =
          { st with readIdx := st.readIdx + 1 }) ∧
    (∀ (s : Nat) (rs : List FetchOutcome) (st : OrchState),
        st.readIdx + rs.length ≤ s →
        st.rateLimited = false →
        (∀ r ∈ rs, benign r = true) →
        processResults (stopFrom s) st rs =
          { st with
            readIdx := st.readIdx + rs.length,
            completed := st.completed + rs.length,
            widgetsEnabled := st.widgetsEnabled + rs.countP (hasDataOk ·),
            widgetsDisabled := st.widgetsDisabled + rs.countP (noDataOk ·),
            errors := st.errors + rs.countP (isOther ·),
            anySuccess := st.anySuccess || rs.any isOk }) := by
  refine ⟨?_, ?_, fun s rs st h1 h2 h3 => processResults_all_recorded s rs st h1 h2 h3⟩
  · intro s outcome st bs hs
    cases bs with
    | nil => rfl
    | cons batch rest =>
      have hflag : stopFrom s st.readIdx = true := by
        simp only [stopFrom, decide_eq_true_eq]
        omega
      simp only [runBatches]
      rw [hflag]
      simp
  · intro s st r rest hs
    have hflag : stopFrom s st.readIdx = true := by
      simp only [stopFrom, decide_eq_true_eq]
      omega
    simp only [processResults]
    rw [hflag]
    simp

/-- Two fetches that both fulfil with public data. -/
def stoppedOutcome : String → FetchOutcome :=
  fun _ => .ok { instantInvite := some "inv", presenceCount := some 3 }

/-- C2 (counterexample): in a run over two targets whose stop flag is set
right after the single batch is issued (the batch-start read sees `false`,
the first result read sees `true`), both fetches of the in-flight batch
were issued and fulfilled with data, yet none of its results is recorded:
the summary counters all stay 0, refuting the claim that every result of
the in-flight batch is still recorded. -/
theorem stop_skips_inflight_results :
    (runWidgetFetch (stopFrom 1) stoppedOutcome ["a", "b"]).issued = ["a", "b"] ∧
    (runWidgetFetch (stopFrom 1) stoppedOutcome ["a", "b"]).completed = 0 ∧
    (runWidgetFetch (stopFrom 1) stoppedOutcome ["a", "b"]).widgetsEnabled = 0 ∧
    (runWidgetFetch (stopFrom 1) stoppedOutcome ["a", "b"]).widgetsDisabled = 0 ∧
    (runWidgetFetch (stopFrom 1) stoppedOutcome ["a", "b"]).errors = 0 := by
  decide

/-- C2 (witness): the three checkpoint behaviours at concrete inputs. -/
theorem shouldStop_checkpoints_witness :
    (runBatches (stopFrom 0) stoppedOutcome initialOrchState [["a"]]).issued =
      initialOrchState.issued ∧
    processResults (stopFrom 0) initialOrchState [FetchOutcome.otherErr] =
      { initialOrchState with readIdx := initialOrchState.readIdx + 1 } ∧
    processResults (stopFrom 2) initialOrchState [FetchOutcome.otherErr] =
      { initialOrchState with
        readIdx := initialOrchState.readIdx + [FetchOutcome.otherErr].length,
        completed := initialOrchState.completed + [FetchOutcome.otherErr].length,
        widgetsEnabled := initialOrchState.widgetsEnabled +
          [FetchOutcome.otherErr].countP (hasDataOk ·),
        widgetsDisabled := initialOrchState.widgetsDisabled +
          [FetchOutcome.otherErr].countP (noDataOk ·),
        errors := initialOrchState.errors +
          [FetchOutcome.otherErr].countP (isOther ·),
        anySuccess := initialOrchState.anySuccess ||
          [FetchOutcome.otherErr].any isOk } :=
  ⟨shouldStop_checkpoints.1 0 stoppedOutcome initialOrchState [["a"]] (by decide),
   shouldStop_checkpoints.2.1 0 initialOrchState FetchOutcome.otherErr [] (by decide),
   shouldStop_checkpoints.2.2 2 [FetchOutcome.otherErr] initialOrchState (by decide)
     rfl (by decide)⟩

/-! ## Session vault (`functions/lib/session.ts`)

The vault's collaborators are injected: the parsed request cookies as a
name-to-value lookup, the KV store's `get` result for the session id, the
crypto module's `decryptToken` (as a function returning `none` where the
source throws) and `encryptToken` (deterministic for a fixed plaintext and
secret within one call; the nonce is irrelevant to the vault's control
flow), and the outcome of the refresh-grant `fetch` (`none` models a
non-ok response; a thrown network error takes the same catch path in
`getSessionContext`).  KV writes and deletes and the token-endpoint call
are recorded as an effect list. -/

def SESSION_TTL_SECONDS : Nat := 60 * 30

def REFRESH_WINDOW_MS : Int := 5 * 60 * 1000

/-- The stored KV record (tokens encrypted at rest). -/
structure SessionRecord where
  user_id : String
  access_token : String
  refresh_token : String
  expires_at : Int
  created_at : Int
  deriving Repr, DecidableEq

/-- The decrypted in-memory session. -/
structure SessionData where
  userId : String
  accessToken : String
  refreshToken : String
  expiresAt : Int
  createdAt : Int
  deriving Repr, DecidableEq

/-- The token endpoint's parsed JSON body (`DiscordTokenResponse`). -/
structure DiscordTokenResponse where
  access_token : String
  token_type : String
  expires_in : Int
  refresh_token : Option String
  scope : String
  deriving Repr, DecidableEq

/-- Attributes passed to `serializeCookie` (serialization itself is an
external collaborator). -/
structure CookieOptions where
  path : String
  httpOnly : Bool
  secure : Bool
  sameSite : String
  maxAge : Nat
  deriving Repr, DecidableEq

/-- A set-cookie instruction: name, value and attributes. -/
structure CookieInstr where
  name : String
  value : String
  options : CookieOptions
  deriving Repr, DecidableEq

def getSessionCookieName (secure : Bool) : String :=
  if secure then "__Host-session" else "session"

def buildSessionCookie (sessionId : String) (secure : Bool) : CookieInstr :=
  { name := getSessionCookieName secure, value := sessionId,
    options := { path := "/", httpOnly := true, secure := secure,
                 sameSite := "Lax", maxAge := SESSION_TTL_SECONDS } }

def buildClearSessionCookie (secure : Bool) : CookieInstr :=
  { name := getSessionCookieName secure, value := "",
    options := { path := "/", httpOnly := true, secure := secure,
                 sameSite := "Lax", maxAge := 0 } }

/-- Side effects of the vault on its collaborators. -/
inductive VaultEffect where
  | kvPut (sessionId : String) (record : SessionRecord) (ttlSeconds : Nat)
  | kvDelete (sessionId : String)
  | tokenFetch (refreshToken : String)
  deriving Repr, DecidableEq

/-- `persistSession(sessionId, session, env)`: encrypts both tokens and
writes the record with the fixed TTL. -/
def persistSession (enc : String → String → String) (secret : String)
    (sessionId : String) (session : SessionData) : VaultEffect :=
  VaultEffect.kvPut sessionId
    { user_id := session.userId,
      access_token := enc session.accessToken secret,
      refresh_token := enc session.refreshToken secret,
      expires_at := session.expiresAt,
      created_at := session.createdAt }
    SESSION_TTL_SECONDS

/-- `refreshSession(sessionId, session, env)`: a falsy (empty) refresh
token short-circuits to `null`; otherwise the refresh grant is posted and
a non-ok response yields `null`, while a token body yields the refreshed
session (keeping the old refresh token when the provider omits a new one)
which is persisted. -/
def refreshSession (enc : String → String → String) (secret : String)
    (sessionId : String) (session : SessionData)
    (tokenResp : Option DiscordTokenResponse) (now : Int) :
    Option SessionData × List VaultEffect :=
  if session.refreshToken = "" then (none, [])
  else
    match tokenResp with
    | none => (none, [VaultEffect.tokenFetch session.refreshToken])
    | some td =>
      (some { userId := session.userId,
              accessToken := td.access_token,
              refreshToken := td.refresh_token.getD session.refreshToken,
              expiresAt := now + td.expires_in * 1000,
              createdAt := session.createdAt },
       [VaultEffect.tokenFetch session.refreshToken,
        persistSession enc secret sessionId
          { userId := session.userId,
            accessToken := td.access_token,
            refreshToken := td.refresh_token.getD session.refreshToken,
            expiresAt := now + td.expires_in * 1000,
            createdAt := session.createdAt }])

/-- The result of `getSessionContext(request, env)`. -/
structure SessionContext where
  sessionId : Option String
  session : Option SessionData
  setCookie : Option CookieInstr
  clearCookie : Option CookieInstr
  secure : Bool
  deriving Repr, DecidableEq

/-- `getSessionContext(request, env)`: cookie lookup, KV load, decryption
of both tokens (either failing throws into the catch that deletes the
session and clears the cookie), the refresh-window check, and either an
inline refresh (deleting the session when it fails) or a re-persist that
renews the TTL with a rolling cookie. -/
def getSessionContext (secure : Bool) (cookies : String → Option String)
    (kvGet : String → Option SessionRecord)
    (dec : String → String → Option String)
    (enc : String → String → String) (secret : String)
    (tokenResp : Option DiscordTokenResponse) (now : Int) :
    SessionContext × List VaultEffect :=
  match cookies (getSessionCookieName secure) with
  | none =>
    ({ sessionId := none, session := none, setCookie := none,
       clearCookie := none, secure := secure }, [])
  | some sessionId =>
    match kvGet sessionId with
    | none =>
      ({ sessionId := some sessionId, session := none, setCookie := none,
         clearCookie := some (buildClearSessionCookie secure), secure := secure }, [])
    | some record =>
      match dec record.access_token secret, dec record.refresh_token secret with
      | some accessToken, some refreshToken =>
        if record.expires_at - now ≤ REFRESH_WINDOW_MS then
          match refreshSession enc secret sessionId
              { userId := record.user_id, accessToken := accessToken,
                refreshToken := refreshToken, expiresAt := record.expires_at,
                createdAt := record.created_at } tokenResp now with
          | (none, effs) =>
            ({ sessionId := some sessionId, session := none, setCookie := none,
               clearCookie := some (buildClearSessionCookie secure), secure := secure },
             effs ++ [VaultEffect.kvDelete sessionId])
          | (some refreshed, effs) =>
            ({ sessionId := some sessionId, session := some refreshed,
               setCookie := some (buildSessionCookie sessionId secure),
               clearCookie := none, secure := secure }, effs)
        else
          ({ sessionId := some sessionId,
             session := some
               { userId := record.user_id, accessToken := accessToken,
                 refreshToken := refreshToken, expiresAt := record.expires_at,
                 createdAt := record.created_at },
             setCookie := some (buildSessionCookie sessionId secure),
             clearCookie := none, secure := secure },
           [persistSession enc secret sessionId
             { userId := record.user_id, accessToken := accessToken,
               refreshToken := refreshToken, expiresAt := record.expires_at,
               createdAt := record.created_at }])
      | _, _ =>
        ({ sessionId := some sessionId, session := none, setCookie := none,
           clearCookie := some (buildClearSessionCookie secure), secure := secure },
         [VaultEffect.kvDelete sessionId])

/-! ### C10: empty refresh token short-circuits refreshSession -/

/-- C10: when the decrypted refresh token is the empty string,
`refreshSession` returns no session immediately, with no token-endpoint
call and no KV write or delete (the stored record is untouched). -/
theorem refreshSession_empty_token (enc : String → String → String)
    (secret sessionId : String) (session : SessionData)
    (tokenResp : Option DiscordTokenResponse) (now : Int)
    (h : session.refreshToken = "") :
    refreshSession enc secret sessionId session tokenResp now = (none, []) := by
  unfold refreshSession
  rw [if_pos h]

def c10session : SessionData :=
  { userId := "u1", accessToken := "at1", refreshToken := "", expiresAt := 0,
    createdAt := 0 }

def c8td : DiscordTokenResponse :=
  { access_token := "newAT", token_type := "Bearer", expires_in := 600,
    refresh_token := some "newRT", scope := "identify guilds" }

/-- C10 (witness): the short-circuit on a concrete session with an empty
refresh token, even though a token response would have been available. -/
theorem refreshSession_empty_token_witness :
    refreshSession (fun v _ => v) "k" "sid1" c10session (some c8td) 5 = (none, []) :=
  refreshSession_empty_token (fun v _ => v) "k" "sid1" c10session (some c8td) 5 rfl

/-! ### C8: sessions inside the refresh window are refreshed inline -/

/-- C8: when the session cookie resolves to a stored record whose
decryption succeeds and whose `expires_at` is less than the 5-minute
refresh window from now, `getSessionContext` attempts the refresh inline
(contacting the token endpoint whenever the decrypted refresh token is
non-empty); if the refresh succeeds the returned session carries the
refreshed access/refresh pair (not the stale stored one) with a rolling
session cookie, and if it fails the session is deleted and a clear-cookie
instruction is returned with no session. -/
theorem getSessionContext_refresh_window (secure : Bool)
    (cookies : String → Option String) (kvGet : String → Option SessionRecord)
    (dec : String → String → Option String) (enc : String → String → String)
    (secret : String) (tokenResp : Option DiscordTokenResponse) (now : Int)
    (sid : String) (record : SessionRecord) (atk rtk : String)
    (hc : cookies (getSessionCookieName secure) = some sid)
    (hk : kvGet sid = some record)
    (ha : dec record.access_token secret = some atk)
    (hr : dec record.refresh_token secret = some rtk)
    (hw : record.expires_at - now < REFRESH_WINDOW_MS) :
    (rtk ≠ "" → VaultEffect.tokenFetch rtk ∈
      (getSessionContext secure cookies kvGet dec enc secret tokenResp now).2) ∧
    (∀ td, tokenResp = some td → rtk ≠ "" →
      ((getSessionContext secure cookies kvGet dec enc secret tokenResp now).1).session =
        some { userId := record.user_id, accessToken := td.access_token,
               refreshToken := td.refresh_token.getD rtk,
               expiresAt := now + td.expires_in * 1000,
               createdAt := record.created_at } ∧
      ((getSessionContext secure cookies kvGet dec enc secret tokenResp now).1).setCookie =
        some (buildSessionCookie sid secure)) ∧
    ((rtk = "" ∨ tokenResp = none) →
      ((getSessionContext secure cookies kvGet dec enc secret tokenResp now).1).session =
        none ∧
      ((getSessionContext secure cookies kvGet dec enc secret tokenResp now).1).clearCookie =
        some (buildClearSessionCookie secure) ∧
      VaultEffect.kvDelete sid ∈
        (getSessionContext secure cookies kvGet dec enc secret tokenResp now).2) := by
  unfold getSessionContext
  simp only [hc, hk, ha, hr]
  rw [if_pos (le_of_lt hw)]
  by_cases hrt : rtk = ""
  · have hre : refreshSession enc secret sid
        { userId := record.user_id, accessToken := atk, refreshToken := rtk,
          expiresAt := record.expires_at, createdAt := record.created_at }
        tokenResp now = (none, []) :=
      refreshSession_empty_token enc secret sid _ tokenResp now hrt
    rw [hre]
    refine ⟨fun hne => absurd hrt hne, fun td _ hne => absurd hrt hne, fun _ => ?_⟩
    exact ⟨rfl, rfl, by simp⟩
  · cases tokenResp with
    | none =>
      have hre : refreshSession enc secret sid
          { userId := record.user_id, accessToken := atk, refreshToken := rtk,
            expiresAt := record.expires_at, createdAt := record.created_at }
          none now = (none, [VaultEffect.tokenFetch rtk]) := by
        unfold refreshSession
        rw [if_neg hrt]
      rw [hre]
      refine ⟨fun _ => by simp, fun td htd => absurd htd (by simp), fun _ => ?_⟩
      exact ⟨rfl, rfl, by simp⟩
    | some td =>
      have hre : refreshSession enc secret sid
          { userId := record.user_id, accessToken := atk, refreshToken := rtk,
            expiresAt := record.expires_at, createdAt := record.created_at }
          (some td) now =
          (some { userId := record.user_id, accessToken := td.access_token,
                  refreshToken := td.refresh_token.getD rtk,
                  expiresAt := now + td.expires_in * 1000,
                  createdAt := record.created_at },
           [VaultEffect.tokenFetch rtk,
            persistSession enc secret sid
              { userId := record.user_id, accessToken := td.access_token,
                refreshToken := td.refresh_token.getD rtk,
                expiresAt := now + td.expires_in * 1000,
                createdAt := record.created_at }]) := by
        unfold refreshSession
        rw [if_neg hrt]
      rw [hre]
      refine ⟨fun _ => by simp, fun td' htd' _ => ?_, fun hcase => ?_⟩
      · have htd : td = td' := by
          injection htd'
        subst htd
        exact ⟨rfl, rfl⟩
      · rcases hcase with hcase | hcase
        · exact absurd hcase hrt
        · exact absurd hcase (by simp)

def c8cookies : String → Option String :=
  fun n => if n = "__Host-session" then some "sid1" else none

def c8record : SessionRecord :=
  { user_id := "u1", access_token := "encAT", refresh_token := "encRT",
    expires_at := 100000, created_at := 1000 }

def c8kv : String → Option SessionRecord :=
  fun i => if i = "sid1" then some c8record else none

def c8dec : String → String → Option String := fun ct _ => some ct

def c8enc : String → String → String := fun v _ => v

/-- C8 (witness): a concrete expiring session whose refresh succeeds — the
returned session carries the token endpoint's new pair. -/
theorem getSessionContext_refresh_window_witness :
    ((getSessionContext true c8cookies c8kv c8dec c8enc "sec" (some c8td) 0).1).session =
      some { userId := c8record.user_id, accessToken := c8td.access_token,
             refreshToken := c8td.refresh_token.getD "encRT",
             expiresAt := 0 + c8td.expires_in * 1000,
             createdAt := c8record.created_at } ∧
    ((getSessionContext true c8cookies c8kv c8dec c8enc "sec" (some c8td) 0).1).setCookie =
      some (buildSessionCookie "sid1" true) :=
  (getSessionContext_refresh_window true c8cookies c8kv c8dec c8enc "sec"
      (some c8td) 0 "sid1" c8record "encAT" "encRT"
      rfl rfl rfl rfl (by norm_num [c8record, REFRESH_WINDOW_MS])).2.1
    c8td rfl (by decide)

/-! ## Token crypto (`functions/lib/crypto.ts`)

`encryptToken`/`decryptToken` wrap the platform's AES-GCM. The repo-owned
logic is: UTF-8 encoding of the plaintext and the secret (`TextEncoder` /
`TextDecoder`), base64url encoding (`btoa`/`atob` with the `+/` → `-_`
character swap and `=`-padding stripped on encode and re-added on decode),
and the `<iv-b64url>.<ciphertext-b64url>` packaging split on the first two
`.`-separated parts.  Bytes are `Nat` values `< 256`; the AES-GCM
primitive, the SHA-256 key derivation and the random 12-byte nonce are
external collaborators and enter as parameters (the `keyCache` memoisation
of the derived key has no semantic effect). -/

/-- The standard base64 alphabet used by `btoa`/`atob`. -/
def b64Alphabet : List Char :=
  "ABCDEFGHIJKLMNOPQRSTUVWXYZabcdefghijklmnopqrstuvwxyz0123456789+/".toList

/-- Character for a sextet value. -/
def sextetChar (n : Nat) : Char := b64Alphabet.getD n 'A'

/-- Sextet value of an alphabet character (as `atob` reads it). -/
def sextetIdx (c : Char) : Nat := b64Alphabet.findIdx (· == c)

/-- `btoa` on a byte list: 3-byte groups become 4 sextet characters, a
trailing 1- or 2-byte group is padded with `=`. -/
def btoaModel : List Nat → List Char
  | [] => []
  | [a] => [sextetChar (a / 4), sextetChar (a % 4 * 16), '=', '=']
  | [a, b] =>
    [sextetChar (a / 4), sextetChar (a % 4 * 16 + b / 16), sextetChar (b % 16 * 4), '=']
  | a :: b :: c :: rest =>
    sextetChar (a / 4) :: sextetChar (a % 4 * 16 + b / 16) ::
      sextetChar (b % 16 * 4 + c / 64) :: sextetChar (c % 64) :: btoaModel rest

/-- `atob` on well-formed base64 text (4-character groups, `=`-padding in
the final group). -/
def atobModel : List Char → List Nat
  | c1 :: c2 :: c3 :: c4 :: rest =>
    if c3 = '=' then [sextetIdx c1 * 4 + sextetIdx c2 / 16]
    else if c4 = '=' then
      [sextetIdx c1 * 4 + sextetIdx c2 / 16, sextetIdx c2 % 16 * 16 + sextetIdx c3 / 4]
    else
      (sextetIdx c1 * 4 + sextetIdx c2 / 16) ::
        (sextetIdx c2 % 16 * 16 + sextetIdx c3 / 4) ::
        (sextetIdx c3 % 4 * 64 + sextetIdx c4) :: atobModel rest
  | _ => []

/-- The `+` → `-` and `/` → `_` replacements of `toBase64Url`. -/
def urlChar (c : Char) : Char :=
  if c = '+' then '-' else if c = '/' then '_' else c

/-- The `-` → `+` and `_` → `/` replacements of `fromBase64Url`. -/
def unUrlChar (c : Char) : Char :=
  if c = '-' then '+' else if c = '_' then '/' else c

/-- The `replace(/=+$/g, '')` step: strip all trailing `=`. -/
def dropTrailingEq (l : List Char) : List Char :=
  (l.reverse.dropWhile (· == '=')).reverse

/-- `toBase64Url(bytes)`. -/
def toBase64Url (bytes : List Nat) : List Char :=
  dropTrailingEq ((btoaModel bytes).map urlChar)

/-- The re-padding step of `fromBase64Url`. -/
def padEq (l : List Char) : List Char :=
  if l.length % 4 = 0 then l else l ++ List.replicate (4 - l.length % 4) '='

/-- `fromBase64Url(value)`. -/
def fromBase64Url (s : List Char) : List Nat :=
  atobModel (padEq (s.map unUrlChar))

/-- The url-mapped sextet characters are never `=` (out-of-range sextet
values fall back to the alphabet default `A`). -/
theorem urlChar_sextetChar_ne_eq (n : Nat) : urlChar (sextetChar n) ≠ '=' := by
  by_cases h : n < 64
  · exact (by decide : ∀ m, m < 64 → urlChar (sextetChar m) ≠ '=') n h
  · unfold sextetChar
    rw [List.getD_eq_default]
    · decide
    · have : b64Alphabet.length = 64 := by decide
      omega

/-- The url-mapped sextet characters are never `.`. -/
theorem urlChar_sextetChar_ne_dot (n : Nat) : urlChar (sextetChar n) ≠ '.' := by
  by_cases h : n < 64
  · exact (by decide : ∀ m, m < 64 → urlChar (sextetChar m) ≠ '.') n h
  · unfold sextetChar
    rw [List.getD_eq_default]
    · decide
    · have : b64Alphabet.length = 64 := by decide
      omega

/-- Url-mapping round-trips on sextet characters. -/
theorem unUrlChar_urlChar_sextetChar (n : Nat) (h : n < 64) :
    unUrlChar (urlChar (sextetChar n)) = sextetChar n :=
  (by decide : ∀ m, m < 64 → unUrlChar (urlChar (sextetChar m)) = sextetChar m) n h

/-- `atob` recovers the sextet value of every alphabet character. -/
theorem sextetIdx_sextetChar (n : Nat) (h : n < 64) :
    sextetIdx (sextetChar n) = n :=
  (by decide : ∀ m, m < 64 → sextetIdx (sextetChar m) = m) n h

/-- Sextet characters are never `=` (unmapped form). -/
theorem sextetChar_ne_eq (n : Nat) : sextetChar n ≠ '=' := by
  by_cases h : n < 64
  · exact (by decide : ∀ m, m < 64 → sextetChar m ≠ '=') n h
  · unfold sextetChar
    rw [List.getD_eq_default]
    · decide
    · have : b64Alphabet.length = 64 := by decide
      omega

def b64Core : List Nat → List Char
  | [] => []
  | [a] => [urlChar (sextetChar (a / 4)), urlChar (sextetChar (a % 4 * 16))]
  | [a, b] =>
    [urlChar (sextetChar (a / 4)), urlChar (sextetChar (a % 4 * 16 + b / 16)),
     urlChar (sextetChar (b % 16 * 4))]
  | a :: b :: c :: rest =>
    urlChar (sextetChar (a / 4)) :: urlChar (sextetChar (a % 4 * 16 + b / 16)) ::
      urlChar (sextetChar (b % 16 * 4 + c / 64)) :: urlChar (sextetChar (c % 64)) ::
      b64Core rest

theorem b64Core_ne_nil : ∀ (l : List Nat), l ≠ [] → b64Core l ≠ []
  | [], h => absurd rfl h
  | [_], _ => by simp [b64Core]
  | [_, _], _ => by simp [b64Core]
  | _ :: _ :: _ :: _, _ => by simp [b64Core]

theorem dropWhile_append_of_ne_nil {p : Char → Bool} :
    ∀ (u v : List Char), u.dropWhile p ≠ [] →
      (u ++ v).dropWhile p = u.dropWhile p ++ v
  | [], _, h => absurd rfl h
  | a :: u, v, h => by
    by_cases hp : p a
    · rw [List.cons_append, List.dropWhile_cons_of_pos hp,
        List.dropWhile_cons_of_pos hp]
      rw [List.dropWhile_cons_of_pos hp] at h
      exact dropWhile_append_of_ne_nil u v h
    · rw [List.cons_append, List.dropWhile_cons_of_neg hp,
        List.dropWhile_cons_of_neg hp, List.cons_append]

theorem dropTrailingEq_append (x z : List Char) (hz : dropTrailingEq z ≠ []) :
    dropTrailingEq (x ++ z) = x ++ dropTrailingEq z := by
  unfold dropTrailingEq at hz ⊢
  rw [List.reverse_append]
  rw [dropWhile_append_of_ne_nil _ _ (fun hh => hz (by rw [hh]; rfl))]
  rw [List.reverse_append, List.reverse_reverse]

theorem dropWhile_eq_self_of (p : Char → Bool) :
    ∀ (l : List Char), (∀ c ∈ l, p c = false) → l.dropWhile p = l
  | [], _ => rfl
  | a :: l, h => by
    rw [List.dropWhile_cons_of_neg (by simp [h a (List.mem_cons_self a l)])]

theorem dropTrailingEq_of_no_eq (l : List Char) (h : ∀ c ∈ l, c ≠ '=') :
    dropTrailingEq l = l := by
  unfold dropTrailingEq
  rw [dropWhile_eq_self_of _ _ (fun c hc => by
    simp only [beq_eq_false_iff_ne, ne_eq]
    exact h c (List.mem_reverse.mp hc))]
  exact List.reverse_reverse l

theorem toBase64Url_eq_core : ∀ (bytes : List Nat), toBase64Url bytes = b64Core bytes
  | [] => rfl
  | [a] => by
    have hu2 : (urlChar (sextetChar (a % 4 * 16)) == '=') = false :=
      beq_eq_false_iff_ne.mpr (urlChar_sextetChar_ne_eq _)
    unfold toBase64Url btoaModel b64Core
    simp [dropTrailingEq, List.dropWhile, hu2, show urlChar '=' = '=' from by decide]
  | [a, b] => by
    have hu3 : (urlChar (sextetChar (b % 16 * 4)) == '=') = false :=
      beq_eq_false_iff_ne.mpr (urlChar_sextetChar_ne_eq _)
    unfold toBase64Url btoaModel b64Core
    simp [dropTrailingEq, List.dropWhile, hu3, show urlChar '=' = '=' from by decide]
  | a :: b :: c :: rest => by
    by_cases hrest : rest = []
    · subst hrest
      have hne : ∀ x ∈ List.map urlChar (btoaModel [a, b, c]), x ≠ '=' := by
        intro x hx
        simp only [btoaModel, List.map_cons, List.map_nil, List.mem_cons,
          List.not_mem_nil, or_false] at hx
        rcases hx with h | h | h | h
        all_goals (rw [h]; exact urlChar_sextetChar_ne_eq _)
      show dropTrailingEq (List.map urlChar (btoaModel [a, b, c])) = b64Core [a, b, c]
      rw [dropTrailingEq_of_no_eq _ hne]
      simp [btoaModel, b64Core]
    · have hz : dropTrailingEq ((btoaModel rest).map urlChar) ≠ [] := by
        have h2 : toBase64Url rest = b64Core rest := toBase64Url_eq_core rest
        unfold toBase64Url at h2
        rw [h2]
        exact b64Core_ne_nil rest hrest
      show dropTrailingEq (List.map urlChar (btoaModel (a :: b :: c :: rest))) =
        b64Core (a :: b :: c :: rest)
      have hsplit : List.map urlChar (btoaModel (a :: b :: c :: rest)) =
          [urlChar (sextetChar (a / 4)), urlChar (sextetChar (a % 4 * 16 + b / 16)),
           urlChar (sextetChar (b % 16 * 4 + c / 64)), urlChar (sextetChar (c % 64))] ++
            List.map urlChar (btoaModel rest) := by
        simp [btoaModel]
      rw [hsplit, dropTrailingEq_append _ _ hz]
      have h2 : dropTrailingEq (List.map urlChar (btoaModel rest)) = b64Core rest := by
        have h3 : toBase64Url rest = b64Core rest := toBase64Url_eq_core rest
        unfold toBase64Url at h3
        exact h3
      rw [h2]
      rfl

theorem padEq_append4 (c1 c2 c3 c4 : Char) (z : List Char) :
    padEq (c1 :: c2 :: c3 :: c4 :: z) = c1 :: c2 :: c3 :: c4 :: padEq z := by
  unfold padEq
  simp only [List.length_cons]
  rw [show (z.length + 1 + 1 + 1 + 1) % 4 = z.length % 4 from by omega]
  split_ifs with h
  · rfl
  · simp

theorem fromBase64Url_core : ∀ (bytes : List Nat), (∀ x ∈ bytes, x < 256) →
    fromBase64Url (b64Core bytes) = bytes
  | [], _ => rfl
  | [a], h => by
    have ha : a < 256 := h a (by simp)
    unfold fromBase64Url b64Core
    rw [List.map_cons, List.map_cons, List.map_nil,
      unUrlChar_urlChar_sextetChar _ (by omega), unUrlChar_urlChar_sextetChar _ (by omega)]
    show atobModel (padEq [sextetChar (a / 4), sextetChar (a % 4 * 16)]) = [a]
    rw [show padEq [sextetChar (a / 4), sextetChar (a % 4 * 16)] =
        [sextetChar (a / 4), sextetChar (a % 4 * 16), '=', '='] from by
      unfold padEq
      norm_num [List.replicate]]
    unfold atobModel
    rw [if_pos rfl, sextetIdx_sextetChar _ (by omega), sextetIdx_sextetChar _ (by omega)]
    rw [show a / 4 * 4 + a % 4 * 16 / 16 = a from by omega]
  | [a, b], h => by
    have ha : a < 256 := h a (by simp)
    have hb : b < 256 := h b (by simp)
    unfold fromBase64Url b64Core
    rw [List.map_cons, List.map_cons, List.map_cons, List.map_nil,
      unUrlChar_urlChar_sextetChar _ (by omega), unUrlChar_urlChar_sextetChar _ (by omega),
      unUrlChar_urlChar_sextetChar _ (by omega)]
    show atobModel (padEq [sextetChar (a / 4), sextetChar (a % 4 * 16 + b / 16),
      sextetChar (b % 16 * 4)]) = [a, b]
    rw [show padEq [sextetChar (a / 4), sextetChar (a % 4 * 16 + b / 16),
        sextetChar (b % 16 * 4)] =
        [sextetChar (a / 4), sextetChar (a % 4 * 16 + b / 16), sextetChar (b % 16 * 4),
         '='] from by
      unfold padEq
      norm_num [List.replicate]]
    unfold atobModel
    rw [if_neg (sextetChar_ne_eq _), if_pos rfl,
      sextetIdx_sextetChar _ (by omega), sextetIdx_sextetChar _ (by omega),
      sextetIdx_sextetChar _ (by omega)]
    rw [show a / 4 * 4 + (a % 4 * 16 + b / 16) / 16 = a from by omega,
      show (a % 4 * 16 + b / 16) % 16 * 16 + b % 16 * 4 / 4 = b from by omega]
  | a :: b :: c :: rest, h => by
    have ha : a < 256 := h a (by simp)
    have hb : b < 256 := h b (by simp)
    have hc : c < 256 := h c (by simp)
    have hrest : ∀ x ∈ rest, x < 256 := fun x hx => h x (by simp [hx])
    have htail : atobModel (padEq (List.map unUrlChar (b64Core rest))) = rest :=
      fromBase64Url_core rest hrest
    unfold fromBase64Url b64Core
    rw [List.map_cons, List.map_cons, List.map_cons, List.map_cons,
      unUrlChar_urlChar_sextetChar _ (by omega), unUrlChar_urlChar_sextetChar _ (by omega),
      unUrlChar_urlChar_sextetChar _ (by omega), unUrlChar_urlChar_sextetChar _ (by omega)]
    rw [padEq_append4]
    unfold atobModel
    rw [if_neg (sextetChar_ne_eq _), if_neg (sextetChar_ne_eq _),
      sextetIdx_sextetChar _ (by omega), sextetIdx_sextetChar _ (by omega),
      sextetIdx_sextetChar _ (by omega), sextetIdx_sextetChar _ (by omega)]
    rw [show a / 4 * 4 + (a % 4 * 16 + b / 16) / 16 = a from by omega,
      show (a % 4 * 16 + b / 16) % 16 * 16 + (b % 16 * 4 + c / 64) / 4 = b from by omega,
      show (b % 16 * 4 + c / 64) % 4 * 64 + c % 64 = c from by omega]
    rw [htail]

def utf8EncodeChar (c : Char) : List Nat :=
  if c.toNat < 128 then [c.toNat]
  else if c.toNat < 2048 then [192 + c.toNat / 64, 128 + c.toNat % 64]
  else if c.toNat < 65536 then
    [224 + c.toNat / 4096, 128 + c.toNat / 64 % 64, 128 + c.toNat % 64]
  else
    [240 + c.toNat / 262144, 128 + c.toNat / 4096 % 64, 128 + c.toNat / 64 % 64,
     128 + c.toNat % 64]

def utf8Encode : List Char → List Nat
  | [] => []
  | c :: cs => utf8EncodeChar c ++ utf8Encode cs

mutual

def utf8Decode : List Nat → Option (List Char)
  | [] => some []
  | b :: rest =>
    if b < 128 then (utf8Decode rest).map (fun s => Char.ofNat b :: s)
    else if b < 192 then none
    else if b < 224 then utf8DecodeTwo b rest
    else if b < 240 then utf8DecodeThree b rest
    else if b < 248 then utf8DecodeFour b rest
    else none
  termination_by l => l.length

def utf8DecodeTwo (b : Nat) : List Nat → Option (List Char)
  | b2 :: rest2 =>
    if 128 ≤ b2 ∧ b2 < 192 then
      (utf8Decode rest2).map (fun s => Char.ofNat ((b - 192) * 64 + (b2 - 128)) :: s)
    else none
  | [] => none
  termination_by l => l.length

def utf8DecodeThree (b : Nat) : List Nat → Option (List Char)
  | b2 :: b3 :: rest3 =>
    if (128 ≤ b2 ∧ b2 < 192) ∧ (128 ≤ b3 ∧ b3 < 192) then
      (utf8Decode rest3).map (fun s =>
        Char.ofNat ((b - 224) * 4096 + (b2 - 128) * 64 + (b3 - 128)) :: s)
    else none
  | _ => none
  termination_by l => l.length

def utf8DecodeFour (b : Nat) : List Nat → Option (List Char)
  | b2 :: b3 :: b4 :: rest4 =>
    if (128 ≤ b2 ∧ b2 < 192) ∧ (128 ≤ b3 ∧ b3 < 192) ∧ (128 ≤ b4 ∧ b4 < 192) then
      (utf8Decode rest4).map (fun s =>
        Char.ofNat ((b - 240) * 262144 + (b2 - 128) * 4096 + (b3 - 128) * 64 +
          (b4 - 128)) :: s)
    else none
  | _ => none
  termination_by l => l.length

end

theorem char_toNat_lt (c : Char) : c.toNat < 1114112 := by
  have h := c.valid
  unfold UInt32.isValidChar Nat.isValidChar at h
  simp [Char.toNat]
  omega

theorem utf8EncodeChar_lt (c : Char) (x : Nat) (hx : x ∈ utf8EncodeChar c) : x < 256 := by
  have hv : c.toNat < 1114112 := char_toNat_lt c
  unfold utf8EncodeChar at hx
  split_ifs at hx <;>
    simp only [List.mem_cons, List.not_mem_nil, or_false] at hx <;>
    omega

theorem utf8Encode_lt : ∀ (s : List Char), ∀ x ∈ utf8Encode s, x < 256
  | [], x, hx => absurd hx (List.not_mem_nil x)
  | c :: cs, x, hx => by
    rcases List.mem_append.mp hx with h | h
    · exact utf8EncodeChar_lt c x h
    · exact utf8Encode_lt cs x h

theorem utf8Decode_encodeChar (c : Char) (tl : List Nat) :
    utf8Decode (utf8EncodeChar c ++ tl) = (utf8Decode tl).map (fun s => c :: s) := by
  have hv : c.toNat < 1114112 := char_toNat_lt c
  by_cases h1 : c.toNat < 128
  · rw [show utf8EncodeChar c = [c.toNat] from by unfold utf8EncodeChar; rw [if_pos h1]]
    rw [List.cons_append, List.nil_append]
    rw [utf8Decode]
    rw [if_pos h1, Char.ofNat_toNat]
  · by_cases h2 : c.toNat < 2048
    · rw [show utf8EncodeChar c = [192 + c.toNat / 64, 128 + c.toNat % 64] from by
        unfold utf8EncodeChar; rw [if_neg h1, if_pos h2]]
      rw [List.cons_append, List.cons_append, List.nil_append]
      rw [utf8Decode]
      rw [if_neg (by omega), if_neg (by omega), if_pos (by omega)]
      rw [utf8DecodeTwo]
      rw [if_pos (by omega)]
      rw [show (192 + c.toNat / 64 - 192) * 64 + (128 + c.toNat % 64 - 128) = c.toNat from
        by omega]
      rw [Char.ofNat_toNat]
    · by_cases h3 : c.toNat < 65536
      · rw [show utf8EncodeChar c =
            [224 + c.toNat / 4096, 128 + c.toNat / 64 % 64, 128 + c.toNat % 64] from by
          unfold utf8EncodeChar; rw [if_neg h1, if_neg h2, if_pos h3]]
        rw [List.cons_append, List.cons_append, List.cons_append, List.nil_append]
        rw [utf8Decode]
        rw [if_neg (by omega), if_neg (by omega), if_neg (by omega), if_pos (by omega)]
        rw [utf8DecodeThree]
        rw [if_pos (by refine ⟨⟨by omega, by omega⟩, by omega, by omega⟩)]
        rw [show (224 + c.toNat / 4096 - 224) * 4096 + (128 + c.toNat / 64 % 64 - 128) * 64 +
            (128 + c.toNat % 64 - 128) = c.toNat from by omega]
        rw [Char.ofNat_toNat]
      · rw [show utf8EncodeChar c =
            [240 + c.toNat / 262144, 128 + c.toNat / 4096 % 64, 128 + c.toNat / 64 % 64,
             128 + c.toNat % 64] from by
          unfold utf8EncodeChar; rw [if_neg h1, if_neg h2, if_neg h3]]
        rw [List.cons_append, List.cons_append, List.cons_append, List.cons_append,
          List.nil_append]
        rw [utf8Decode]
        rw [if_neg (by omega), if_neg (by omega), if_neg (by omega), if_neg (by omega),
          if_pos (by omega)]
        rw [utf8DecodeFour]
        rw [if_pos (by refine ⟨⟨by omega, by omega⟩, ⟨by omega, by omega⟩, by omega,
          by omega⟩)]
        rw [show (240 + c.toNat / 262144 - 240) * 262144 +
            (128 + c.toNat / 4096 % 64 - 128) * 4096 +
            (128 + c.toNat / 64 % 64 - 128) * 64 + (128 + c.toNat % 64 - 128) = c.toNat from
          by omega]
        rw [Char.ofNat_toNat]

theorem utf8_roundtrip : ∀ (s : List Char), utf8Decode (utf8Encode s) = some s
  | [] => by rw [show utf8Encode [] = [] from rfl, utf8Decode]
  | c :: cs => by
    show utf8Decode (utf8EncodeChar c ++ utf8Encode cs) = some (c :: cs)
    rw [utf8Decode_encodeChar, utf8_roundtrip cs]
    rfl

theorem b64Core_no_dot : ∀ (l : List Nat), ∀ x ∈ b64Core l, x ≠ '.'
  | [], x, hx => absurd hx (List.not_mem_nil x)
  | [a], x, hx => by
    simp only [b64Core, List.mem_cons, List.not_mem_nil, or_false] at hx
    rcases hx with h | h <;> (rw [h]; exact urlChar_sextetChar_ne_dot _)
  | [a, b], x, hx => by
    simp only [b64Core, List.mem_cons, List.not_mem_nil, or_false] at hx
    rcases hx with h | h | h <;> (rw [h]; exact urlChar_sextetChar_ne_dot _)
  | a :: b :: c :: rest, x, hx => by
    simp only [b64Core, List.mem_cons] at hx
    rcases hx with h | h | h | h | h
    · rw [h]; exact urlChar_sextetChar_ne_dot _
    · rw [h]; exact urlChar_sextetChar_ne_dot _
    · rw [h]; exact urlChar_sextetChar_ne_dot _
    · rw [h]; exact urlChar_sextetChar_ne_dot _
    · exact b64Core_no_dot rest x h

def jsSplitDot : List Char → List (List Char)
  | [] => [[]]
  | c :: rest =>
    if c = '.' then [] :: jsSplitDot rest
    else
      match jsSplitDot rest with
      | [] => [[c]]
      | p :: ps => (c :: p) :: ps

theorem jsSplitDot_no_dot : ∀ (l : List Char), '.' ∉ l → jsSplitDot l = [l]
  | [], _ => rfl
  | c :: rest, h => by
    have hc : ¬ c = '.' := fun e => h (by rw [← e]; exact List.mem_cons_self c rest)
    rw [jsSplitDot, if_neg hc,
      jsSplitDot_no_dot rest (fun hm => h (List.mem_cons_of_mem c hm))]

theorem jsSplitDot_append (a b : List Char) (ha : '.' ∉ a) :
    jsSplitDot (a ++ '.' :: b) = a :: jsSplitDot b := by
  induction a with
  | nil =>
    rw [List.nil_append, jsSplitDot, if_pos rfl]
  | cons c a ih =>
    have hc : ¬ c = '.' := fun e => ha (by rw [← e]; exact List.mem_cons_self c a)
    rw [List.cons_append, jsSplitDot, if_neg hc,
      ih (fun hm => ha (List.mem_cons_of_mem c hm))]

def encryptToken (aesEnc : List Nat → List Nat → List Nat → List Nat)
    (sha256 : List Nat → List Nat) (value secret : List Char) (iv : List Nat) :
    List Char :=
  toBase64Url iv ++ '.' ::
    toBase64Url (aesEnc (sha256 (utf8Encode secret)) iv (utf8Encode value))

def decryptToken (aesDec : List Nat → List Nat → List Nat → Option (List Nat))
    (sha256 : List Nat → List Nat) (value secret : List Char) :
    Except String (List Char) :=
  match jsSplitDot value with
  | ivPart :: dataPart :: _ =>
    if ivPart = [] ∨ dataPart = [] then Except.error "Invalid encrypted token payload"
    else
      match aesDec (sha256 (utf8Encode secret)) (fromBase64Url ivPart)
          (fromBase64Url dataPart) with
      | none => Except.error "Decryption failed"
      | some decrypted =>
        match utf8Decode decrypted with
        | some plaintext => Except.ok plaintext
        | none => Except.error "Invalid UTF-8"
  | _ => Except.error "Invalid encrypted token payload"

/-- C7: decrypting the result of encrypting any plaintext (empty, ASCII,
or multi-byte Unicode — `value` ranges over all `List Char`) with any
secret returns the original plaintext.  The AES-GCM primitive and the
SHA-256 key derivation are the platform collaborators: `aesDec` inverts
`aesEnc` on byte inputs, ciphertexts are bytes, and a ciphertext is never
empty (AES-GCM appends a 16-byte tag); `iv` is the 12-byte random nonce
drawn for this call. -/
theorem encryptToken_decryptToken
    (aesEnc : List Nat → List Nat → List Nat → List Nat)
    (aesDec : List Nat → List Nat → List Nat → Option (List Nat))
    (sha256 : List Nat → List Nat)
    (hinv : ∀ k iv d, (∀ x ∈ d, x < 256) → aesDec k iv (aesEnc k iv d) = some d)
    (hbytes : ∀ k iv d, (∀ x ∈ d, x < 256) → ∀ x ∈ aesEnc k iv d, x < 256)
    (hne : ∀ k iv d, aesEnc k iv d ≠ [])
    (iv : List Nat) (hiv : iv ≠ []) (hivb : ∀ x ∈ iv, x < 256)
    (value secret : List Char) :
    decryptToken aesDec sha256 (encryptToken aesEnc sha256 value secret iv) secret =
      Except.ok value := by
  have hctb : ∀ x ∈ aesEnc (sha256 (utf8Encode secret)) iv (utf8Encode value), x < 256 :=
    hbytes _ iv _ (utf8Encode_lt value)
  have hivdot : '.' ∉ toBase64Url iv := by
    rw [toBase64Url_eq_core]
    intro hm
    exact b64Core_no_dot iv '.' hm rfl
  have hctdot : '.' ∉ toBase64Url (aesEnc (sha256 (utf8Encode secret)) iv
      (utf8Encode value)) := by
    rw [toBase64Url_eq_core]
    intro hm
    exact b64Core_no_dot _ '.' hm rfl
  have hsplit : jsSplitDot (encryptToken aesEnc sha256 value secret iv) =
      toBase64Url iv ::
        [toBase64Url (aesEnc (sha256 (utf8Encode secret)) iv (utf8Encode value))] := by
    unfold encryptToken
    rw [jsSplitDot_append _ _ hivdot, jsSplitDot_no_dot _ hctdot]
  unfold decryptToken
  rw [hsplit]
  dsimp only
  rw [if_neg (by
    push_neg
    constructor
    · rw [toBase64Url_eq_core]; exact b64Core_ne_nil iv hiv
    · rw [toBase64Url_eq_core]; exact b64Core_ne_nil _ (hne _ _ _))]
  rw [toBase64Url_eq_core iv, fromBase64Url_core iv hivb,
    toBase64Url_eq_core, fromBase64Url_core _ hctb]
  rw [hinv _ iv _ (utf8Encode_lt value)]
  dsimp only
  rw [utf8_roundtrip value]

/-- A toy authenticated cipher satisfying the collaborator contract:
append a 16-byte tag of zeros; decryption strips it. -/
def wEnc : List Nat → List Nat → List Nat → List Nat :=
  fun _ _ d => d ++ List.replicate 16 0

def wDec : List Nat → List Nat → List Nat → Option (List Nat) :=
  fun _ _ d => if 16 ≤ d.length then some (d.take (d.length - 16)) else none

def wSha : List Nat → List Nat := fun l => l

/-- C7 (witness): the round-trip at a concrete multi-byte Unicode
plaintext, secret and nonce, under a concrete primitive satisfying the
contract. -/
theorem encryptToken_decryptToken_witness :
    decryptToken wDec wSha
      (encryptToken wEnc wSha "héllo¡𝄞".toList "secret".toList
        [1, 2, 3, 4, 5, 6, 7, 8, 9, 10, 11, 12]) "secret".toList =
      Except.ok "héllo¡𝄞".toList :=
  encryptToken_decryptToken wEnc wDec wSha
    (fun k iv d _ => by
      unfold wDec wEnc
      rw [if_pos (by simp)]
      congr 1
      simp)
    (fun k iv d hd x hx => by
      rcases List.mem_append.mp hx with h | h
      · exact hd x h
      · simp [List.eq_of_mem_replicate h])
    (fun k iv d => by simp [wEnc])
    [1, 2, 3, 4, 5, 6, 7, 8, 9, 10, 11, 12] (by simp) (by decide)
    "héllo¡𝄞".toList "secret".toList

end Metacord
